import Mathlib

/-!
# Verification of the agentic-data-repair pipeline

A shallow embedding of the record-repair pipeline:

* `src/semantic_pipeline/processor.py` — `DataProcessor.process_csv` and
  `DataProcessor._prepare_row` (row normalization, the three-stage
  validate → repair → bucket state machine, confidence-gated routing);
* `src/data_repair/schemas.py` — the `SalesLead` Pydantic model (field
  constraints, the Title-Case name validator, and the `model_post_init`
  cross-field invariant).

Modelling conventions:

* CSV rows are records of optional strings (`RawRow`); a missing column is
  `none` (Python `row['k']` raises `KeyError`, `row.get('k')` yields `None`).
* Python `float` values are modelled as exact scaled decimals (`Dec`,
  an integer significand together with a power-of-ten denominator); all
  numeric literals appearing in the claims are exactly representable in
  binary floating point, so exact decimal arithmetic is faithful there.
  IEEE rounding, `inf`/`nan` and underscore digit grouping are not modelled.
* The AI repair collaborator (`repair_lead`) is an external service and is
  modelled as an opaque parameter (`Oracle`); a raised exception is an
  `Except.error`.  `processRow` additionally returns the list of collaborator
  invocations made for the row, so "the repair path was (not) taken" is
  directly observable.
* Pydantic's behaviour is embedded at the granularity the code uses it:
  `str_strip_whitespace=True` (string fields are trimmed before checks and
  stored trimmed), constrained fields, enum coercion by exact value, and
  `model_post_init` raising `ValueError` (which pydantic v2 reports as a
  `ValidationError`, hence caught by the controller's
  `except ValidationError`).  `EmailStr` is a third-party validator; it is
  modelled as a structural local-part@dotted-domain check storing the
  normalized address (email-validator lowercases the domain part), the
  granularity at which the code relies on it.
-/

deriving instance DecidableEq for Except

/-! ## Exact decimal numbers (model of Python `float` values) -/

/-- An exact scaled decimal: the value `num / 10 ^ shift`.  Embeds every
numeric value the pipeline manipulates (contract values, confidence scores).
Representation is not normalized; value-level comparison is by
cross-multiplication. -/
structure Dec where
  num : Int
  shift : Nat
deriving DecidableEq

/-- The integer `n` as a decimal. -/
def Dec.ofInt (n : Int) : Dec := ⟨n, 0⟩

/-- Value-level `≤` on decimals, by cross-multiplication. -/
def Dec.le (a b : Dec) : Bool :=
  decide (a.num * ((10 ^ b.shift : Nat) : Int) ≤ b.num * ((10 ^ a.shift : Nat) : Int))

/-- Value-level equality on decimals, by cross-multiplication. -/
def Dec.eqv (a b : Dec) : Bool :=
  decide (a.num * ((10 ^ b.shift : Nat) : Int) = b.num * ((10 ^ a.shift : Nat) : Int))

/-- Value-level strict positivity (Python `x > 0`). -/
def Dec.isPos (a : Dec) : Bool := decide (0 < a.num)

/-- Value-level zero test (Python truthiness of a float: `0.0` is falsy). -/
def Dec.isZero (a : Dec) : Bool := decide (a.num = 0)

/-- The rational value denoted by a decimal. -/
def Dec.toRat (a : Dec) : ℚ := (a.num : ℚ) / (10 : ℚ) ^ a.shift

/-! ## Character-list string utilities

All string functions are implemented structurally over `List Char` so that
concrete runs reduce inside the kernel. -/

/-- Python `str.strip()` on a character list. -/
def listTrim (cs : List Char) : List Char :=
  ((cs.dropWhile Char.isWhitespace).reverse.dropWhile Char.isWhitespace).reverse

/-- Python `str.strip()`. -/
def strTrim (s : String) : String := String.mk (listTrim s.toList)

/-- Digit run to a natural number. -/
def digitsToNat (cs : List Char) : Nat :=
  cs.foldl (fun n c => n * 10 + (c.toNat - 48)) 0

/-- Optional leading sign: returns (negative?, rest). -/
def parseSign : List Char → Bool × List Char
  | '+' :: cs => (false, cs)
  | '-' :: cs => (true, cs)
  | cs => (false, cs)

/-- Python `int(s)`: strip, optional sign, then a non-empty digit run.
(Underscore grouping and non-ASCII digits are not modelled.) -/
def parseInt? (s : String) : Option Int :=
  let cs := listTrim s.toList
  let sr := parseSign cs
  if sr.2.isEmpty || !sr.2.all Char.isDigit then none
  else some (if sr.1 then -(digitsToNat sr.2 : Int) else (digitsToNat sr.2 : Int))

/-- Unsigned decimal mantissa: `digits`, `digits.digits`, `digits.` or
`.digits`, as accepted by Python `float`. -/
def parseMantissa? (cs : List Char) : Option Dec :=
  let ip := cs.takeWhile Char.isDigit
  match cs.dropWhile Char.isDigit with
  | [] => if ip.isEmpty then none else some ⟨(digitsToNat ip : Int), 0⟩
  | '.' :: fp =>
    if fp.all Char.isDigit && !(ip.isEmpty && fp.isEmpty) then
      some ⟨(digitsToNat ip * 10 ^ fp.length + digitsToNat fp : Nat), fp.length⟩
    else none
  | _ => none

/-- Signed exponent part after `e`/`E`. -/
def parseExp? (cs : List Char) : Option Int :=
  let sr := parseSign cs
  if sr.2.isEmpty || !sr.2.all Char.isDigit then none
  else some (if sr.1 then -(digitsToNat sr.2 : Int) else (digitsToNat sr.2 : Int))

/-- Scale a decimal by `10 ^ e`. -/
def Dec.scale (a : Dec) (e : Int) : Dec :=
  if 0 ≤ e then ⟨a.num * ((10 ^ e.toNat : Nat) : Int), a.shift⟩
  else ⟨a.num, a.shift + (-e).toNat⟩

/-- Python `float(s)`: strip, optional sign, decimal mantissa, optional
`e`/`E` exponent.  (`inf`/`nan` and underscore grouping are not modelled.) -/
def parseFloat? (s : String) : Option Dec :=
  let cs := listTrim s.toList
  let sr := parseSign cs
  let mant := sr.2.takeWhile (fun c => c != 'e' && c != 'E')
  let e? : Option Int :=
    match sr.2.dropWhile (fun c => c != 'e' && c != 'E') with
    | [] => some 0
    | _ :: ecs => parseExp? ecs
  match parseMantissa? mant, e? with
  | some m, some e => some (Dec.scale (if sr.1 then ⟨-m.num, m.shift⟩ else m) e)
  | _, _ => none

/-- `contract_value.replace(chr(36), '').replace(',', '')`: removing every
occurrence of the dollar sign and then every comma equals one filtering
pass, the two characters being distinct. -/
def stripCurrency (s : String) : String :=
  String.mk (s.toList.filter (fun c => c != '$' && c != ','))

/-- Maximal runs of characters satisfying `p` (used to analyse `str.istitle`
and the spec's notion of "word"). -/
def runsBy (p : Char → Bool) : List Char → List (List Char)
  | [] => []
  | c :: cs =>
    if p c then
      match cs with
      | [] => [[c]]
      | d :: _ =>
        if p d then
          match runsBy p cs with
          | r :: rs => (c :: r) :: rs
          | [] => [[c]]
        else [c] :: runsBy p cs
    else runsBy p cs

/-! ## `str.istitle` (CPython semantics, ASCII)

`SalesLead.validate_title_case` accepts a name exactly when Python's
`str.istitle()` returns `True`.  CPython scans left to right: an uppercase
letter may not follow a cased character, a lowercase letter must follow a
cased character, and at least one cased character is required.  (Unicode
titlecase characters do not occur in the data; cased = ASCII letter.) -/

/-- A cased character (ASCII letter). -/
def isCased (c : Char) : Bool := c.isUpper || c.isLower

/-- The CPython `istitle` scan: `prevCased` is whether the previous
character was cased, `cased` whether any cased character was seen. -/
def istitleAux : List Char → Bool → Bool → Bool
  | [], _, cased => cased
  | c :: cs, prevCased, cased =>
    if c.isUpper then
      if prevCased then false else istitleAux cs true true
    else if c.isLower then
      if prevCased then istitleAux cs true true else false
    else istitleAux cs false cased

/-- Python `s.istitle()`. -/
def istitle (s : String) : Bool := istitleAux s.toList false false

/-! ## Enumerations (`schemas.py`) -/

/-- `Industry(str, Enum)`: Tech, Finance, Retail, Healthcare, Other. -/
inductive Industry where
  | tech | finance | retail | healthcare | other
deriving DecidableEq

/-- The string value of an `Industry` member. -/
def Industry.val : Industry → String
  | .tech => "Tech"
  | .finance => "Finance"
  | .retail => "Retail"
  | .healthcare => "Healthcare"
  | .other => "Other"

/-- Pydantic enum coercion: a string validates as `Industry` exactly when it
equals a member's value. -/
def Industry.fromString? (s : String) : Option Industry :=
  if s = "Tech" then some .tech
  else if s = "Finance" then some .finance
  else if s = "Retail" then some .retail
  else if s = "Healthcare" then some .healthcare
  else if s = "Other" then some .other
  else none

/-- `Segment(str, Enum)`: Enterprise, Mid-Market, SMB. -/
inductive Segment where
  | enterprise | midMarket | smb
deriving DecidableEq

/-- The string value of a `Segment` member. -/
def Segment.val : Segment → String
  | .enterprise => "Enterprise"
  | .midMarket => "Mid-Market"
  | .smb => "SMB"

/-- Pydantic enum coercion for `Segment`. -/
def Segment.fromString? (s : String) : Option Segment :=
  if s = "Enterprise" then some .enterprise
  else if s = "Mid-Market" then some .midMarket
  else if s = "SMB" then some .smb
  else none

/-! ## Raw rows and row preparation (`DataProcessor._prepare_row`) -/

/-- One CSV row as delivered by `csv.DictReader`: each known column is a
string when present.  A missing column is `none`. -/
structure RawRow where
  id : Option String := none
  name : Option String := none
  email : Option String := none
  country_code : Option String := none
  industry : Option String := none
  segment : Option String := none
  contract_value : Option String := none
  sales_notes : Option String := none
  confidence_score : Option String := none
deriving DecidableEq

/-- The typed mapping `_prepare_row` builds: required fields always present,
optional fields present only when the raw string was non-blank. -/
structure Prepared where
  id : Int
  name : String
  email : String
  country_code : Option String := none
  industry : Option String := none
  segment : Option String := none
  contract_value : Option Dec := none
  sales_notes : Option String := none
  confidence_score : Option Dec := none
deriving DecidableEq

/-- An exception raised inside `_prepare_row`: a `KeyError` from a missing
required column, or a `ValueError` from `int()`/`float()`. -/
inductive PrepError where
  | keyError (field : String)
  | valueError (msg : String)
deriving DecidableEq

/-- Python truthiness guard `row.get(k) and row[k].strip()`: the raw string,
kept only when present and non-blank after trimming. -/
def blankOpt : Option String → Option String
  | none => none
  | some s => if strTrim s = "" then none else some s

/-- `float()` applied to an optional raw string (`none` when the field was
omitted), raising `ValueError` on a bad number. -/
def parseOptFloat : Option String → Except PrepError (Option Dec)
  | none => .ok none
  | some s =>
    match parseFloat? s with
    | some d => .ok (some d)
    | none => .error (.valueError ("could not convert string to float: " ++ s))

/-- `DataProcessor._prepare_row`, in the evaluation order of the Python
source: `int(row['id'])`, `row['name']`, `row['email']`, then the optional
fields, converting `contract_value` (currency-stripped) and
`confidence_score` with `float()`. -/
def prepareRow (row : RawRow) : Except PrepError Prepared :=
  match row.id with
  | none => .error (.keyError "id")
  | some idS =>
    match parseInt? idS with
    | none => .error (.valueError ("invalid literal for int: " ++ idS))
    | some idV =>
      match row.name with
      | none => .error (.keyError "name")
      | some nameS =>
        match row.email with
        | none => .error (.keyError "email")
        | some emailS =>
          match parseOptFloat ((blankOpt row.contract_value).map stripCurrency) with
          | .error e => .error e
          | .ok cv? =>
            match parseOptFloat (blankOpt row.confidence_score) with
            | .error e => .error e
            | .ok conf? =>
              .ok { id := idV, name := nameS, email := emailS,
                    country_code := blankOpt row.country_code,
                    industry := blankOpt row.industry,
                    segment := blankOpt row.segment,
                    contract_value := cv?,
                    sales_notes := blankOpt row.sales_notes,
                    confidence_score := conf? }

/-! ## The `SalesLead` schema (`schemas.py`) -/

/-- A validated `SalesLead`.  String fields are stored stripped
(`str_strip_whitespace=True`); enum fields are stored as members
(`use_enum_values=False`); `confidence_score` defaults to `1.0`. -/
structure SalesLead where
  id : Int
  name : String
  email : String
  country_code : Option String
  industry : Option Industry
  segment : Option Segment
  contract_value : Option Dec
  sales_notes : Option String
  confidence_score : Dec
deriving DecidableEq

/-- Structural model of `EmailStr`: a non-empty local part of plain atom
characters, an `@`, and a dotted domain of non-empty alphanumeric-or-hyphen
labels (email-validator requires a period in the domain). -/
def isValidEmail (s : String) : Bool :=
  match (s.toList.splitOn '@') with
  | [lp, dom] =>
    !lp.isEmpty && lp.all (fun c => c.isAlphanum || c == '.' || c == '_' || c == '%' || c == '+' || c == '-') &&
    (let labels := dom.splitOn '.'
     decide (2 ≤ labels.length) && labels.all (fun l => !l.isEmpty && l.all (fun c => c.isAlphanum || c == '-')))
  | _ => false

/-- The address `EmailStr` stores: email-validator's normalized form, which
lowercases the domain part while keeping the local part as written.  (IDNA
and Unicode NFC normalization do not arise for ASCII addresses.)  On a
string without exactly one `@` the fallback is the identity; validated
emails never hit it. -/
def normalizeEmail (s : String) : String :=
  match (s.toList.splitOn '@') with
  | [lp, dom] => String.mk (lp ++ '@' :: dom.map Char.toLower)
  | _ => s

/-- `^[A-Z]{2}$`: exactly two uppercase ASCII letters. -/
def isCountryCode (s : String) : Bool :=
  decide (s.length = 2) && s.toList.all Char.isUpper

/-- `[]` when the check passed, a one-element error list otherwise. -/
def errIf (ok : Bool) (msg : String) : List String :=
  if ok then [] else [msg]

/-- The check a present optional value must pass (`none` passes vacuously:
the schema's "field missing" path). -/
def optionOk (f : α → Bool) : Option α → Bool
  | none => true
  | some a => f a

/-- Field-level validation errors of the `SalesLead` model against a
prepared mapping, accumulated across fields (pydantic collects every
violated constraint).  String fields are checked on their stripped form. -/
def fieldErrors (p : Prepared) : List String :=
  errIf (decide (1 ≤ p.id)) "id must be >= 1" ++
  (if (strTrim p.name).length < 2 then ["name too short"]
   else errIf (istitle (strTrim p.name)) "name must be Title Case") ++
  errIf (isValidEmail (strTrim p.email)) "email invalid" ++
  errIf (optionOk (fun s => isCountryCode (strTrim s)) p.country_code)
    "country_code must be two uppercase letters" ++
  errIf (optionOk (fun s => (Industry.fromString? s).isSome) p.industry) "industry invalid" ++
  errIf (optionOk (fun s => (Segment.fromString? s).isSome) p.segment) "segment invalid" ++
  errIf (optionOk Dec.isPos p.contract_value) "contract_value must be greater than 0" ++
  errIf (optionOk (fun d => Dec.le (Dec.ofInt 0) d && Dec.le d (Dec.ofInt 1)) p.confidence_score)
    "confidence_score out of range"

/-- The model instance built once every field check passed: strings stored
stripped, the email additionally stored in email-validator's normalized
form (domain lowercased), enum strings coerced to members,
`confidence_score` defaulted. -/
def mkLead (p : Prepared) : SalesLead :=
  { id := p.id,
    name := strTrim p.name,
    email := normalizeEmail (strTrim p.email),
    country_code := p.country_code.map strTrim,
    industry := p.industry.bind Industry.fromString?,
    segment := p.segment.bind Segment.fromString?,
    contract_value := p.contract_value,
    sales_notes := p.sales_notes.map strTrim,
    confidence_score := p.confidence_score.getD (Dec.ofInt 1) }

/-- `model_post_init` guard, with Python truthiness: fires when
`sales_notes` is truthy and non-blank but `country_code` is falsy (`None` or
empty), `industry` is `None`, or `contract_value` is falsy (`None` or `0`). -/
def crossFieldViolation (l : SalesLead) : Bool :=
  (match l.sales_notes with
   | none => false
   | some s => !(decide (s = "")) && !(decide (strTrim s = ""))) &&
  ((match l.country_code with
    | none => true
    | some s => decide (s = "")) ||
   l.industry.isNone ||
   (match l.contract_value with
    | none => true
    | some d => Dec.isZero d))

/-- `SalesLead.model_validate`: field constraints first (errors accumulate
into one `ValidationError`), then `model_post_init`, whose `ValueError` is
reported as a validation error as well. -/
def modelValidate (p : Prepared) : Except String SalesLead :=
  match fieldErrors p with
  | [] =>
    if crossFieldViolation (mkLead p) then
      .error "Record has sales_notes but missing extracted fields. This indicates semantic extraction is needed."
    else .ok (mkLead p)
  | e :: es => .error (es.foldl (fun a b => a ++ "; " ++ b) e)

/-! ## The pipeline controller (`DataProcessor.process_csv`) -/

/-- The repair collaborator (`repair_lead`): normalized mapping and
validation-error text in, a repaired `SalesLead` out, or a raised
exception (`Except.error`).  Opaque to the core. -/
def Oracle : Type := Prepared → String → Except String SalesLead

/-- An entry of the repaired / low-confidence buckets: original raw row,
repaired record, and the validation error that triggered repair. -/
structure RepairRecord where
  original : RawRow
  repaired : SalesLead
  error_fixed : String
deriving DecidableEq

/-- An entry of the failed bucket, with its stage. -/
inductive FailedEntry where
  | preprocessing (row : RawRow) (error : PrepError)
  | repairFailed (row : RawRow) (validation_error : String) (repair_error : String)
deriving DecidableEq

/-- The `stage` string stored with a failed entry. -/
def FailedEntry.stage : FailedEntry → String
  | .preprocessing .. => "preprocessing"
  | .repairFailed .. => "repair"

/-- The bucket entry a single row produces. -/
inductive Outcome where
  | valid (lead : SalesLead)
  | repaired (r : RepairRecord)
  | lowConfidence (r : RepairRecord)
  | failed (f : FailedEntry)
deriving DecidableEq

/-- Pass 2 routing on the collaborator's answer: a returned record goes to
`repaired` when `confidence >= self.min_confidence`, else to
`lowConfidence`; a raised exception goes to the failed bucket with stage
"repair", keeping both error texts. -/
def repairOutcome (minConf : Dec) (row : RawRow) (verr : String) :
    Except String SalesLead → Outcome
  | .ok lead =>
    if Dec.le minConf lead.confidence_score then .repaired ⟨row, lead, verr⟩
    else .lowConfidence ⟨row, lead, verr⟩
  | .error rerr => .failed (.repairFailed row verr rerr)

/-- The per-row body of the `process_csv` loop.  Returns the single bucket
entry for the row together with the list of collaborator invocations made
(each as mapping–error pair), so the repair boundary is observable. -/
def processRow (minConf : Dec) (oracle : Oracle) (row : RawRow) :
    Outcome × List (Prepared × String) :=
  match prepareRow row with
  | .error e => (.failed (.preprocessing row e), [])
  | .ok p =>
    match modelValidate p with
    | .ok lead => (.valid lead, [])
    | .error verr => (repairOutcome minConf row verr (oracle p verr), [(p, verr)])

/-- The four accumulating result buckets of a `DataProcessor` run. -/
structure Results where
  valid_leads : List SalesLead := []
  repaired_leads : List RepairRecord := []
  low_confidence_leads : List RepairRecord := []
  failed_leads : List FailedEntry := []
deriving DecidableEq

/-- Append one row's bucket entry to the matching bucket. -/
def applyOutcome (s : Results) : Outcome → Results
  | .valid l => { s with valid_leads := s.valid_leads ++ [l] }
  | .repaired r => { s with repaired_leads := s.repaired_leads ++ [r] }
  | .lowConfidence r => { s with low_confidence_leads := s.low_confidence_leads ++ [r] }
  | .failed f => { s with failed_leads := s.failed_leads ++ [f] }

/-- The `process_csv` row loop from a given bucket state. -/
def processCsvFrom (minConf : Dec) (oracle : Oracle) (s : Results) :
    List RawRow → Results
  | [] => s
  | row :: rows =>
    processCsvFrom minConf oracle (applyOutcome s (processRow minConf oracle row).1) rows

/-- `DataProcessor.process_csv` on the parsed row list, starting from the
empty buckets of `__init__`. -/
def processCsv (minConf : Dec) (oracle : Oracle) (rows : List RawRow) : Results :=
  processCsvFrom minConf oracle {} rows

/-- Total number of bucket entries. -/
def Results.total (s : Results) : Nat :=
  s.valid_leads.length + s.repaired_leads.length +
    s.low_confidence_leads.length + s.failed_leads.length

/-- Exactly one bucket received exactly one new entry between states `s`
and `t`, the other three being untouched. -/
def exactlyOneAppended (s t : Results) : Prop :=
  (∃ e, t.valid_leads = s.valid_leads ++ [e] ∧ t.repaired_leads = s.repaired_leads ∧
    t.low_confidence_leads = s.low_confidence_leads ∧ t.failed_leads = s.failed_leads) ∨
  (∃ e, t.repaired_leads = s.repaired_leads ++ [e] ∧ t.valid_leads = s.valid_leads ∧
    t.low_confidence_leads = s.low_confidence_leads ∧ t.failed_leads = s.failed_leads) ∨
  (∃ e, t.low_confidence_leads = s.low_confidence_leads ++ [e] ∧ t.valid_leads = s.valid_leads ∧
    t.repaired_leads = s.repaired_leads ∧ t.failed_leads = s.failed_leads) ∨
  (∃ e, t.failed_leads = s.failed_leads ++ [e] ∧ t.valid_leads = s.valid_leads ∧
    t.repaired_leads = s.repaired_leads ∧ t.low_confidence_leads = s.low_confidence_leads)

/-! ## The spec's reading of the Title-Case rule

For the refinement claim about the name check, a second predicate written
from the specification's words — "every word begins with an uppercase
letter and has no other uppercase letters" — reading "word" the ordinary
way, as a maximal whitespace-separated token. -/

/-- The spec sentence, applied to one whitespace-separated word. -/
def specWordOk : List Char → Bool
  | [] => true
  | c :: cs => c.isUpper && cs.all (fun d => !d.isUpper)

/-- The spec's Title-Case rule: every whitespace-separated word begins with
an uppercase letter and contains no other uppercase letter. -/
def titleCaseSpec (s : String) : Bool :=
  (runsBy (fun c => !c.isWhitespace) s.toList).all specWordOk

/-- The corrected reading: "words" are the maximal runs of cased
characters; each must be one uppercase letter followed by lowercase ones,
and at least one cased character must occur. -/
def runOk : List Char → Bool
  | [] => false
  | c :: cs => c.isUpper && cs.all Char.isLower

/-! ## Concrete fixtures used by witnesses and counterexamples -/

/-- A collaborator that always raises. -/
def oracleRefuse : Oracle := fun _ _ => .error "repair unavailable"

/-- A concrete schema-conformant repaired record. -/
def leadFix : SalesLead :=
  { id := 1, name := "Ann Lee", email := "ann@ex.com", country_code := some "US",
    industry := some .tech, segment := none, contract_value := some (Dec.ofInt 5000),
    sales_notes := none, confidence_score := Dec.ofInt 1 }

/-- A collaborator that always returns `leadFix`. -/
def oracleFix : Oracle := fun _ _ => .ok leadFix

/-- Row whose notes are filled but whose structured fields are all blank. -/
def rowNotes : RawRow :=
  { id := some "7", name := some "Ann Lee", email := some "ann@ex.com",
    country_code := some "", industry := none, contract_value := some " ",
    sales_notes := some "met at expo" }

/-- The mapping `_prepare_row` produces for `rowNotes`. -/
def prepNotes : Prepared :=
  { id := 7, name := "Ann Lee", email := "ann@ex.com", sales_notes := some "met at expo" }

/-- Row with a non-numeric `id`. -/
def rowBadId : RawRow :=
  { id := some "abc", name := some "Bo Bo", email := some "b@b.co" }

/-- Row with a lower-case name (fails validation, repairable). -/
def rowBob : RawRow :=
  { id := some "1", name := some "bob", email := some "b@x.co" }

/-- The mapping `_prepare_row` produces for `rowBob`. -/
def prepBob : Prepared := { id := 1, name := "bob", email := "b@x.co" }

/-- Row missing its `name` column. -/
def rowNoName : RawRow := { id := some "1", email := some "x@y.io" }

/-- Row with a negative contract value. -/
def rowNegCV : RawRow :=
  { id := some "1", name := some "Zed Q", email := some "z@q.io",
    contract_value := some "-5000" }

/-- The mapping `_prepare_row` produces for `rowNegCV`. -/
def prepNegCV : Prepared :=
  { id := 1, name := "Zed Q", email := "z@q.io", contract_value := some ⟨-5000, 0⟩ }

/-- Fully valid row whose name carries surrounding whitespace. -/
def rowPadded : RawRow :=
  { id := some "1", name := some " Alice Ray ", email := some "a@ex.com" }

/-- The mapping `_prepare_row` produces for `rowPadded`: the name keeps its
padding (only the schema strips it). -/
def prepPadded : Prepared := { id := 1, name := " Alice Ray ", email := "a@ex.com" }

/-- The record `rowPadded` validates to: the stored name is stripped. -/
def leadPadded : SalesLead :=
  { id := 1, name := "Alice Ray", email := "a@ex.com", country_code := none,
    industry := none, segment := none, contract_value := none, sales_notes := none,
    confidence_score := Dec.ofInt 1 }

/-- Fully valid row, no whitespace anywhere, whose email domain carries
uppercase letters. -/
def rowUpperEmail : RawRow :=
  { id := some "1", name := some "Ann Lee", email := some "ann@EX.com" }

/-- The mapping `_prepare_row` produces for `rowUpperEmail`: the email is
passed through verbatim. -/
def prepUpperEmail : Prepared := { id := 1, name := "Ann Lee", email := "ann@EX.com" }

/-- The record `rowUpperEmail` validates to: the stored email has its
domain lowercased by email-validator normalization. -/
def leadUpperEmail : SalesLead :=
  { id := 1, name := "Ann Lee", email := "ann@ex.com", country_code := none,
    industry := none, segment := none, contract_value := none, sales_notes := none,
    confidence_score := Dec.ofInt 1 }

/-- State machine equivalent to the CPython `istitle` scan, phrased by word
position: `inWord` tells whether the previous character was cased.  At a
word start an uppercase letter opens a word and a lowercase letter is
rejected; inside a word a lowercase letter continues it and an uppercase
letter is rejected; an uncased character closes the word. -/
def wordsOk (inWord : Bool) : List Char → Bool
  | [] => true
  | c :: cs =>
    if c.isUpper then !inWord && wordsOk true cs
    else if c.isLower then inWord && wordsOk true cs
    else wordsOk false cs

/-! # Theorems -/

theorem Dec.le_iff_toRat (a b : Dec) : Dec.le a b = true ↔ a.toRat ≤ b.toRat := by
  have ha : (0 : ℚ) < (10 : ℚ) ^ a.shift := by positivity
  have hb : (0 : ℚ) < (10 : ℚ) ^ b.shift := by positivity
  rw [Dec.le, decide_eq_true_iff, Dec.toRat, Dec.toRat, div_le_div_iff₀ ha hb]
  constructor
  · intro h
    have h2 : ((a.num * ((10 ^ b.shift : Nat) : Int) : Int) : ℚ)
        ≤ ((b.num * ((10 ^ a.shift : Nat) : Int) : Int) : ℚ) := Int.cast_le.mpr h
    push_cast at h2
    exact h2
  · intro h
    have h2 : ((a.num * ((10 ^ b.shift : Nat) : Int) : Int) : ℚ)
        ≤ ((b.num * ((10 ^ a.shift : Nat) : Int) : Int) : ℚ) := by
      push_cast
      exact h
    exact Int.cast_le.mp h2

theorem Dec.eqv_iff_toRat (a b : Dec) : Dec.eqv a b = true ↔ a.toRat = b.toRat := by
  have ha : ((10 : ℚ) ^ a.shift) ≠ 0 := by positivity
  have hb : ((10 : ℚ) ^ b.shift) ≠ 0 := by positivity
  rw [Dec.eqv, decide_eq_true_iff, Dec.toRat, Dec.toRat, div_eq_div_iff ha hb]
  constructor
  · intro h
    have h2 : ((a.num * ((10 ^ b.shift : Nat) : Int) : Int) : ℚ)
        = ((b.num * ((10 ^ a.shift : Nat) : Int) : Int) : ℚ) := Int.cast_inj.mpr h
    push_cast at h2
    exact h2
  · intro h
    have h2 : ((a.num * ((10 ^ b.shift : Nat) : Int) : Int) : ℚ)
        = ((b.num * ((10 ^ a.shift : Nat) : Int) : Int) : ℚ) := by
      push_cast
      exact h
    exact Int.cast_inj.mp h2

theorem Dec.le_of_eqv (a b : Dec) (h : Dec.eqv a b = true) : Dec.le a b = true := by
  rw [Dec.le_iff_toRat]
  exact le_of_eq ((Dec.eqv_iff_toRat a b).mp h)

/-! ## Inversion and unfolding lemmas -/

/-! ## Inversion and unfolding lemmas -/

theorem prepareRow_ok_inv (row : RawRow) (p : Prepared) (h : prepareRow row = .ok p) :
    (∃ idS, row.id = some idS ∧ parseInt? idS = some p.id) ∧
    row.name = some p.name ∧ row.email = some p.email ∧
    p.country_code = blankOpt row.country_code ∧
    p.industry = blankOpt row.industry ∧
    p.segment = blankOpt row.segment ∧
    parseOptFloat ((blankOpt row.contract_value).map stripCurrency) = .ok p.contract_value ∧
    p.sales_notes = blankOpt row.sales_notes ∧
    parseOptFloat (blankOpt row.confidence_score) = .ok p.confidence_score := by
  unfold prepareRow at h
  cases hid : row.id with
  | none => simp only [hid] at h; exact absurd h (by simp)
  | some idS =>
    simp only [hid] at h
    cases hpi : parseInt? idS with
    | none => simp only [hpi] at h; exact absurd h (by simp)
    | some idV =>
      simp only [hpi] at h
      cases hn : row.name with
      | none => simp only [hn] at h; exact absurd h (by simp)
      | some nameS =>
        simp only [hn] at h
        cases he : row.email with
        | none => simp only [he] at h; exact absurd h (by simp)
        | some emailS =>
          simp only [he] at h
          cases hcv : parseOptFloat ((blankOpt row.contract_value).map stripCurrency) with
          | error e => simp only [hcv] at h; exact absurd h (by simp)
          | ok cv =>
            simp only [hcv] at h
            cases hcf : parseOptFloat (blankOpt row.confidence_score) with
            | error e => simp only [hcf] at h; exact absurd h (by simp)
            | ok conf =>
              simp only [hcf] at h
              simp only [Except.ok.injEq] at h
              subst h
              exact ⟨⟨idS, rfl, hpi⟩, rfl, rfl, rfl, rfl, rfl, rfl, rfl, rfl⟩

theorem modelValidate_ok_inv (p : Prepared) (lead : SalesLead)
    (h : modelValidate p = .ok lead) :
    fieldErrors p = [] ∧ crossFieldViolation (mkLead p) = false ∧ lead = mkLead p := by
  unfold modelValidate at h
  cases hfe : fieldErrors p with
  | nil =>
    simp only [hfe] at h
    cases hcf : crossFieldViolation (mkLead p) with
    | false =>
      simp only [hcf, Bool.false_eq_true, if_false, Except.ok.injEq] at h
      exact ⟨rfl, rfl, h.symm⟩
    | true => simp only [hcf, if_true] at h; exact absurd h (by simp)
  | cons e es => simp only [hfe] at h; exact absurd h (by simp)

theorem modelValidate_error_of_fieldErrors (p : Prepared) (h : fieldErrors p ≠ []) :
    ∃ msg, modelValidate p = .error msg := by
  unfold modelValidate
  cases hfe : fieldErrors p with
  | nil => exact absurd hfe h
  | cons e es => exact ⟨_, rfl⟩

theorem modelValidate_error_of_violation (p : Prepared) (h0 : fieldErrors p = [])
    (h : crossFieldViolation (mkLead p) = true) :
    modelValidate p =
      .error "Record has sales_notes but missing extracted fields. This indicates semantic extraction is needed." := by
  unfold modelValidate
  simp only [h0, h, if_true]

theorem errIf_eq_nil (b : Bool) (m : String) : errIf b m = [] ↔ b = true := by
  cases b <;> simp [errIf]

theorem fieldErrors_nil_parts (p : Prepared) (h : fieldErrors p = []) :
    (1 ≤ p.id) ∧
    2 ≤ (strTrim p.name).length ∧ istitle (strTrim p.name) = true ∧
    isValidEmail (strTrim p.email) = true ∧
    optionOk (fun s => isCountryCode (strTrim s)) p.country_code = true ∧
    optionOk (fun s => (Industry.fromString? s).isSome) p.industry = true ∧
    optionOk (fun s => (Segment.fromString? s).isSome) p.segment = true ∧
    optionOk Dec.isPos p.contract_value = true ∧
    optionOk (fun d => Dec.le (Dec.ofInt 0) d && Dec.le d (Dec.ofInt 1)) p.confidence_score = true := by
  unfold fieldErrors at h
  simp only [List.append_eq_nil, errIf_eq_nil, decide_eq_true_eq] at h
  obtain ⟨⟨⟨⟨⟨⟨⟨h1, h2⟩, h3⟩, h4⟩, h5⟩, h6⟩, h7⟩, h8⟩ := h
  have hname : 2 ≤ (strTrim p.name).length ∧ istitle (strTrim p.name) = true := by
    by_cases hl : (strTrim p.name).length < 2
    · rw [if_pos hl] at h2; exact absurd h2 (by simp)
    · rw [if_neg hl] at h2
      exact ⟨by omega, (errIf_eq_nil _ _).mp h2⟩
  exact ⟨h1, hname.1, hname.2, h3, h4, h5, h6, h7, h8⟩

theorem processRow_prep_error (minConf : Dec) (oracle : Oracle) (row : RawRow)
    (e : PrepError) (h : prepareRow row = .error e) :
    processRow minConf oracle row = (.failed (.preprocessing row e), []) := by
  unfold processRow
  simp only [h]

theorem processRow_valid (minConf : Dec) (oracle : Oracle) (row : RawRow)
    (p : Prepared) (lead : SalesLead)
    (hp : prepareRow row = .ok p) (hv : modelValidate p = .ok lead) :
    processRow minConf oracle row = (.valid lead, []) := by
  unfold processRow
  simp only [hp, hv]

theorem processRow_invalid (minConf : Dec) (oracle : Oracle) (row : RawRow)
    (p : Prepared) (verr : String)
    (hp : prepareRow row = .ok p) (hv : modelValidate p = .error verr) :
    processRow minConf oracle row = (repairOutcome minConf row verr (oracle p verr), [(p, verr)]) := by
  unfold processRow
  simp only [hp, hv]

theorem applyOutcome_total (s : Results) (o : Outcome) :
    (applyOutcome s o).total = s.total + 1 := by
  cases o <;> simp [applyOutcome, Results.total, List.length_append] <;> omega

theorem processCsvFrom_total (minConf : Dec) (oracle : Oracle) (rows : List RawRow) :
    ∀ s : Results, (processCsvFrom minConf oracle s rows).total = s.total + rows.length := by
  induction rows with
  | nil => intro s; simp [processCsvFrom]
  | cons row rows ih =>
    intro s
    rw [processCsvFrom, ih, applyOutcome_total]
    simp [List.length_cons]
    omega

theorem applyOutcome_exactlyOne (s : Results) (o : Outcome) :
    exactlyOneAppended s (applyOutcome s o) := by
  cases o with
  | valid l => exact Or.inl ⟨l, rfl, rfl, rfl, rfl⟩
  | repaired r => exact Or.inr (Or.inl ⟨r, rfl, rfl, rfl, rfl⟩)
  | lowConfidence r => exact Or.inr (Or.inr (Or.inl ⟨r, rfl, rfl, rfl, rfl⟩))
  | failed f => exact Or.inr (Or.inr (Or.inr ⟨f, rfl, rfl, rfl, rfl⟩))

theorem processCsvFrom_append (minConf : Dec) (oracle : Oracle) (l1 l2 : List RawRow) :
    ∀ s : Results, processCsvFrom minConf oracle s (l1 ++ l2)
      = processCsvFrom minConf oracle (processCsvFrom minConf oracle s l1) l2 := by
  induction l1 with
  | nil => intro s; rfl
  | cons row rows ih =>
    intro s
    rw [List.cons_append, processCsvFrom, processCsvFrom, ih]

theorem Char.isLower_eq_false_of_isUpper (c : Char) (h : c.isUpper = true) :
    c.isLower = false := by
  simp only [Char.isUpper, Char.isLower, decide_eq_true_eq, Bool.and_eq_true] at h ⊢
  rw [Bool.and_eq_false_iff]
  left
  simp only [decide_eq_false_iff_not]
  intro hc
  have h1 : (97 : Nat) ≤ c.val.toNat := hc
  have h2 : c.val.toNat ≤ 90 := h.2
  omega

theorem runsBy_cons_pos (p : Char → Bool) (ds : List Char) :
    ∀ d, p d = true →
      runsBy p (d :: ds) = (d :: ds.takeWhile p) :: runsBy p (ds.dropWhile p) := by
  induction ds with
  | nil => intro d h; simp [runsBy, h]
  | cons e es ih =>
    intro d h
    cases hpe : p e with
    | true =>
      rw [runsBy]
      simp only [h, if_true, hpe, ih e hpe]
      simp [List.takeWhile_cons, List.dropWhile_cons, hpe]
    | false =>
      rw [runsBy]
      simp only [h, if_true, hpe]
      simp [List.takeWhile_cons, List.dropWhile_cons, hpe]

theorem runsBy_eq_nil_iff (p : Char → Bool) (cs : List Char) :
    runsBy p cs = [] ↔ cs.all (fun c => !p c) = true := by
  induction cs with
  | nil => simp [runsBy]
  | cons c cs ih =>
    cases hc : p c with
    | true =>
      rw [runsBy_cons_pos p cs c hc]
      simp [hc]
    | false =>
      rw [runsBy.eq_def]
      simp [hc, ih]

theorem wordsOk_spec (cs : List Char) :
    (wordsOk false cs = (runsBy isCased cs).all runOk) ∧
    (wordsOk true cs = ((cs.takeWhile isCased).all Char.isLower &&
      (runsBy isCased (cs.dropWhile isCased)).all runOk)) := by
  induction cs with
  | nil => simp [wordsOk, runsBy]
  | cons c cs ih =>
    obtain ⟨ih1, ih2⟩ := ih
    cases hu : c.isUpper with
    | true =>
      have hcc : isCased c = true := by simp [isCased, hu]
      have hl : c.isLower = false := Char.isLower_eq_false_of_isUpper c hu
      rw [runsBy_cons_pos isCased cs c hcc]
      constructor
      · rw [wordsOk]
        simp [hu, ih2, runOk, hl]
      · rw [wordsOk]
        simp [hu, List.takeWhile_cons, List.dropWhile_cons, hcc, hl]
    | false =>
      cases hl : c.isLower with
      | true =>
        have hcc : isCased c = true := by simp [isCased, hl]
        rw [runsBy_cons_pos isCased cs c hcc]
        constructor
        · rw [wordsOk]
          simp [hu, hl, runOk]
        · rw [wordsOk]
          simp [hu, hl, ih2, List.takeWhile_cons, List.dropWhile_cons, hcc]
      | false =>
        have hcc : isCased c = false := by simp [isCased, hu, hl]
        constructor
        · rw [wordsOk, runsBy.eq_def]
          simp [hu, hl, hcc, ih1]
        · rw [wordsOk, runsBy.eq_def]
          simp [hu, hl, hcc, List.takeWhile_cons, List.dropWhile_cons, ih1]

theorem istitleAux_spec (cs : List Char) :
    ∀ prevCased cased, istitleAux cs prevCased cased
      = (wordsOk prevCased cs && (cased || cs.any isCased)) := by
  induction cs with
  | nil => intro prev cased; cases prev <;> cases cased <;> simp [istitleAux, wordsOk]
  | cons c cs ih =>
    intro prev cased
    cases hu : c.isUpper with
    | true =>
      have hcc : isCased c = true := by simp [isCased, hu]
      cases prev with
      | true => rw [istitleAux, wordsOk]; simp [hu]
      | false => rw [istitleAux, wordsOk]; simp [hu, hcc, ih]
    | false =>
      cases hl : c.isLower with
      | true =>
        have hcc : isCased c = true := by simp [isCased, hl]
        cases prev with
        | true => rw [istitleAux, wordsOk]; simp [hu, hl, hcc, ih]
        | false => rw [istitleAux, wordsOk]; simp [hu, hl]
      | false =>
        have hcc : isCased c = false := by simp [isCased, hu, hl]
        cases prev with
        | true => rw [istitleAux, wordsOk]; simp [hu, hl, hcc, ih]
        | false => rw [istitleAux, wordsOk]; simp [hu, hl, hcc, ih]

theorem list_any_eq_not_all_not (p : Char → Bool) (l : List Char) :
    l.any p = !l.all (fun c => !p c) := by
  induction l with
  | nil => rfl
  | cons c cs ih => simp [List.any_cons, List.all_cons, ih]

theorem istitle_eq_runs (s : String) :
    istitle s = (!(runsBy isCased s.toList).isEmpty
      && (runsBy isCased s.toList).all runOk) := by
  rw [istitle, istitleAux_spec, (wordsOk_spec s.toList).1, list_any_eq_not_all_not,
    Bool.false_or]
  have key : (s.toList.all fun c => !isCased c) = (runsBy isCased s.toList).isEmpty := by
    cases hre : runsBy isCased s.toList with
    | nil =>
      simp only [List.isEmpty_nil]
      exact (runsBy_eq_nil_iff isCased s.toList).mp hre
    | cons a as =>
      simp only [List.isEmpty_cons]
      cases hall : (s.toList.all fun c => !isCased c) with
      | false => rfl
      | true =>
        exact absurd ((runsBy_eq_nil_iff isCased s.toList).mpr hall)
          (by rw [hre]; simp)
  rw [key, Bool.and_comm]

theorem listTrim_idem (cs : List Char) : listTrim (listTrim cs) = listTrim cs := by
  have hrw : ∀ x : List Char,
      listTrim x = List.rdropWhile Char.isWhitespace (List.dropWhile Char.isWhitespace x) :=
    fun x => rfl
  rw [hrw, hrw]
  have h1 : List.dropWhile Char.isWhitespace
      (List.rdropWhile Char.isWhitespace (List.dropWhile Char.isWhitespace cs))
      = List.rdropWhile Char.isWhitespace (List.dropWhile Char.isWhitespace cs) := by
    cases hT : List.rdropWhile Char.isWhitespace (List.dropWhile Char.isWhitespace cs) with
    | nil => rfl
    | cons c T2 =>
      have hpre := List.rdropWhile_prefix Char.isWhitespace
        (List.dropWhile Char.isWhitespace cs)
      rw [hT] at hpre
      obtain ⟨t, ht⟩ := hpre
      have hAne : List.dropWhile Char.isWhitespace cs ≠ [] := by
        rw [← ht]; simp
      have hhead := List.head_dropWhile_not Char.isWhitespace cs hAne
      have hh2 : (List.dropWhile Char.isWhitespace cs).head? = some c := by
        rw [← ht]; rfl
      have hh3 : (List.dropWhile Char.isWhitespace cs).head? =
          some ((List.dropWhile Char.isWhitespace cs).head hAne) :=
        List.head?_eq_head hAne
      have hc : Char.isWhitespace c = false := by
        rw [hh2] at hh3
        obtain rfl : c = (List.dropWhile Char.isWhitespace cs).head hAne :=
          Option.some.inj hh3
        exact hhead
      rw [List.dropWhile_cons, hc]
      simp
  rw [h1, List.rdropWhile_idempotent]

theorem strTrim_idem (s : String) : strTrim (strTrim s) = strTrim s := by
  unfold strTrim
  rw [show (String.mk (listTrim s.toList)).toList = listTrim s.toList from rfl, listTrim_idem]

theorem blankOpt_isSome_iff (o : Option String) :
    (blankOpt o).isSome = true ↔ ∃ t, o = some t ∧ strTrim t ≠ "" := by
  cases o with
  | none => simp [blankOpt]
  | some t => by_cases hb : strTrim t = "" <;> simp [blankOpt, hb]

theorem parseOptFloat_ok_isSome (o : Option String) (v : Option Dec)
    (h : parseOptFloat o = .ok v) : v.isSome = o.isSome := by
  cases o with
  | none =>
    simp only [parseOptFloat, Except.ok.injEq] at h
    rw [← h]
    rfl
  | some s =>
    unfold parseOptFloat at h
    cases hp : parseFloat? s with
    | none => simp only [hp] at h; exact absurd h (by simp)
    | some d =>
      simp only [hp, Except.ok.injEq] at h
      rw [← h]
      rfl

theorem industry_val_fromString (t : String) (i : Industry)
    (h : Industry.fromString? t = some i) : Industry.val i = t := by
  unfold Industry.fromString? at h
  split_ifs at h with h1 h2 h3 h4 h5 <;>
    simp only [Option.some.injEq] at h <;> subst h <;> simp [Industry.val, *]

theorem segment_val_fromString (t : String) (i : Segment)
    (h : Segment.fromString? t = some i) : Segment.val i = t := by
  unfold Segment.fromString? at h
  split_ifs at h with h1 h2 h3 <;>
    simp only [Option.some.injEq] at h <;> subst h <;> simp [Segment.val, *]

theorem processCsvFrom_cons_entry (minConf : Dec) (oracle : Oracle) (row : RawRow)
    (o : Outcome) (lg : List (Prepared × String)) (s : Results) (rows : List RawRow)
    (h : processRow minConf oracle row = (o, lg)) :
    processCsvFrom minConf oracle s (row :: rows)
      = processCsvFrom minConf oracle (applyOutcome s o) rows := by
  rw [processCsvFrom, h]

/-! ## Claim theorems -/

/-- **C2.** For every input CSV, each input row is appended to exactly one
of the four result buckets: the run's bucket sizes sum to the number of
input rows, and each processing step appends exactly one entry to exactly
one bucket, leaving the other three untouched (pairwise disjointness per
row). -/
theorem buckets_partition_rows (minConf : Dec) (oracle : Oracle) (rows : List RawRow) :
    (processCsv minConf oracle rows).total = rows.length ∧
    ∀ (s : Results) (row : RawRow),
      exactlyOneAppended s (applyOutcome s (processRow minConf oracle row).1) := by
  constructor
  · rw [processCsv, processCsvFrom_total]
    simp [Results.total]
  · exact fun s row => applyOutcome_exactlyOne s (processRow minConf oracle row).1

/-- **C3.** No exception escapes a single record's processing into the
run: the loop is a plain fold that always continues with the remaining
rows, a preparation exception becomes a Failed bucket entry, and a repair
exception (after a validation failure) becomes a Failed bucket entry
carrying both error texts.  Together with `buckets_partition_rows`, every
per-record failure is converted into exactly one bucket entry. -/
theorem per_record_failures_become_bucket_entries (minConf : Dec) (oracle : Oracle) :
    (∀ (s : Results) (l1 l2 : List RawRow),
        processCsvFrom minConf oracle s (l1 ++ l2)
          = processCsvFrom minConf oracle (processCsvFrom minConf oracle s l1) l2) ∧
    (∀ (row : RawRow) (e : PrepError), prepareRow row = .error e →
        processRow minConf oracle row = (.failed (.preprocessing row e), [])) ∧
    (∀ (row : RawRow) (p : Prepared) (verr rerr : String),
        prepareRow row = .ok p → modelValidate p = .error verr →
        oracle p verr = .error rerr →
        processRow minConf oracle row = (.failed (.repairFailed row verr rerr), [(p, verr)])) := by
  refine ⟨fun s l1 l2 => processCsvFrom_append minConf oracle l1 l2 s,
    fun row e h => processRow_prep_error minConf oracle row e h, ?_⟩
  intro row p verr rerr hp hv ho
  rw [processRow_invalid minConf oracle row p verr hp hv, ho]
  rfl

theorem per_record_failures_become_bucket_entries_witness :
    processRow (Dec.ofInt 0) oracleRefuse rowBadId
      = (.failed (.preprocessing rowBadId (.valueError "invalid literal for int: abc")), []) ∧
    processRow (Dec.ofInt 0) oracleRefuse rowBob
      = (.failed (.repairFailed rowBob "name must be Title Case" "repair unavailable"),
          [(prepBob, "name must be Title Case")]) :=
  ⟨(per_record_failures_become_bucket_entries (Dec.ofInt 0) oracleRefuse).2.1 rowBadId
      (.valueError "invalid literal for int: abc") (by decide),
   (per_record_failures_become_bucket_entries (Dec.ofInt 0) oracleRefuse).2.2 rowBob prepBob
      "name must be Title Case" "repair unavailable" (by decide) (by decide) rfl⟩

/-- **C8.** For every input row on which row preparation raises (bad id,
bad number, or a missing required column), the row is appended to the
Failed bucket with stage "preprocessing", no collaborator invocation is
made, and the result does not depend on the repair collaborator at all. -/
theorem prep_error_goes_to_failed_preprocessing (minConf : Dec)
    (oracle oracle2 : Oracle) (row : RawRow) (e : PrepError)
    (h : prepareRow row = .error e) :
    processRow minConf oracle row = (.failed (.preprocessing row e), []) ∧
    (FailedEntry.preprocessing row e).stage = "preprocessing" ∧
    processRow minConf oracle row = processRow minConf oracle2 row := by
  have h1 := processRow_prep_error minConf oracle row e h
  have h2 := processRow_prep_error minConf oracle2 row e h
  exact ⟨h1, rfl, h1.trans h2.symm⟩

theorem prep_error_goes_to_failed_preprocessing_witness :
    processRow (Dec.ofInt 0) oracleRefuse rowBadId
      = (.failed (.preprocessing rowBadId (.valueError "invalid literal for int: abc")), []) ∧
    processRow (Dec.ofInt 0) oracleRefuse rowBadId = processRow (Dec.ofInt 0) oracleFix rowBadId :=
  ⟨(prep_error_goes_to_failed_preprocessing (Dec.ofInt 0) oracleRefuse oracleFix rowBadId
      (.valueError "invalid literal for int: abc") (by decide)).1,
   (prep_error_goes_to_failed_preprocessing (Dec.ofInt 0) oracleRefuse oracleFix rowBadId
      (.valueError "invalid literal for int: abc") (by decide)).2.2⟩

/-- **C10.** For every input row missing one of the required columns
`id`, `name`, `email` (with the `id` cell parseable whenever it is the
`name`/`email` lookup that is reached, so that preparation raises a
`KeyError` rather than a parse error), the catch-all handler still
converts the row into a Failed entry with stage "preprocessing" and the
run continues with the remaining rows. -/
theorem missing_required_column_failed_preprocessing (minConf : Dec) (oracle : Oracle)
    (row : RawRow)
    (h : row.id = none ∨
      ((parseInt? (row.id.getD "")).isSome = true ∧ (row.name = none ∨ row.email = none))) :
    ∃ f, (f = "id" ∨ f = "name" ∨ f = "email") ∧
      prepareRow row = .error (.keyError f) ∧
      (FailedEntry.preprocessing row (.keyError f)).stage = "preprocessing" ∧
      processRow minConf oracle row = (.failed (.preprocessing row (.keyError f)), []) ∧
      ∀ (s : Results) (rows : List RawRow),
        processCsvFrom minConf oracle s (row :: rows)
          = processCsvFrom minConf oracle
              (applyOutcome s (.failed (.preprocessing row (.keyError f)))) rows := by
  have build : ∀ f, prepareRow row = .error (.keyError f) →
      (f = "id" ∨ f = "name" ∨ f = "email") →
      ∃ f, (f = "id" ∨ f = "name" ∨ f = "email") ∧
        prepareRow row = .error (.keyError f) ∧
        (FailedEntry.preprocessing row (.keyError f)).stage = "preprocessing" ∧
        processRow minConf oracle row = (.failed (.preprocessing row (.keyError f)), []) ∧
        ∀ (s : Results) (rows : List RawRow),
          processCsvFrom minConf oracle s (row :: rows)
            = processCsvFrom minConf oracle
                (applyOutcome s (.failed (.preprocessing row (.keyError f)))) rows := by
    intro f hf hmem
    have hpr := processRow_prep_error minConf oracle row (.keyError f) hf
    exact ⟨f, hmem, hf, rfl, hpr,
      fun s rows => processCsvFrom_cons_entry minConf oracle row _ _ s rows hpr⟩
  rcases h with hid | ⟨hpi, hne⟩
  · refine build "id" ?_ (Or.inl rfl)
    unfold prepareRow
    simp [hid]
  · cases hidv : row.id with
    | none =>
      rw [hidv] at hpi
      exact absurd hpi (by decide)
    | some idS =>
      rw [hidv] at hpi
      obtain ⟨idV, hidV2⟩ := Option.isSome_iff_exists.mp hpi
      simp only [Option.getD_some] at hidV2
      cases hn2 : row.name with
      | none =>
        refine build "name" ?_ (Or.inr (Or.inl rfl))
        unfold prepareRow
        simp [hidv, hidV2, hn2]
      | some nameS =>
        have he2 : row.email = none := by
          rcases hne with hn | he
          · rw [hn] at hn2; exact absurd hn2 (by simp)
          · exact he
        refine build "email" ?_ (Or.inr (Or.inr rfl))
        unfold prepareRow
        simp [hidv, hidV2, hn2, he2]

theorem missing_required_column_failed_preprocessing_witness :
    ∃ f, (f = "id" ∨ f = "name" ∨ f = "email") ∧
      prepareRow rowNoName = .error (.keyError f) ∧
      (FailedEntry.preprocessing rowNoName (.keyError f)).stage = "preprocessing" ∧
      processRow (Dec.ofInt 0) oracleRefuse rowNoName
        = (.failed (.preprocessing rowNoName (.keyError f)), []) ∧
      ∀ (s : Results) (rows : List RawRow),
        processCsvFrom (Dec.ofInt 0) oracleRefuse s (rowNoName :: rows)
          = processCsvFrom (Dec.ofInt 0) oracleRefuse
              (applyOutcome s (.failed (.preprocessing rowNoName (.keyError f)))) rows :=
  missing_required_column_failed_preprocessing (Dec.ofInt 0) oracleRefuse rowNoName
    (Or.inr ⟨by decide, Or.inl rfl⟩)

/-- **C1.** For every input row whose `sales_notes` is non-empty after
trimming while `country_code`, `industry` and `contract_value` are all
empty or missing, once preparation succeeds (so direct validation is
reached) schema validation necessarily fails — when every field check
passes, the `model_post_init` cross-field invariant rejects the record —
and the controller therefore invokes the repair collaborator on that
row's mapping and validation error. -/
theorem cross_field_invariant_forces_repair (minConf : Dec) (oracle : Oracle)
    (row : RawRow) (p : Prepared) (s : String)
    (hs : row.sales_notes = some s) (hsnb : strTrim s ≠ "")
    (hcc : row.country_code = none ∨ ∃ t, row.country_code = some t ∧ strTrim t = "")
    (hin : row.industry = none ∨ ∃ t, row.industry = some t ∧ strTrim t = "")
    (hcv : row.contract_value = none ∨ ∃ t, row.contract_value = some t ∧ strTrim t = "")
    (hp : prepareRow row = .ok p) :
    ∃ verr, modelValidate p = .error verr ∧
      processRow minConf oracle row
        = (repairOutcome minConf row verr (oracle p verr), [(p, verr)]) := by
  obtain ⟨_, _, _, h4, h5, _, h7, h8, _⟩ := prepareRow_ok_inv row p hp
  have hccn : p.country_code = none := by
    rcases hcc with h | ⟨t, ht, htb⟩
    · rw [h4, h]; rfl
    · rw [h4, ht]; simp [blankOpt, htb]
  have hinn : p.industry = none := by
    rcases hin with h | ⟨t, ht, htb⟩
    · rw [h5, h]; rfl
    · rw [h5, ht]; simp [blankOpt, htb]
  have hcvn : p.contract_value = none := by
    have hbcv : blankOpt row.contract_value = none := by
      rcases hcv with h | ⟨t, ht, htb⟩
      · rw [h]; rfl
      · rw [ht]; simp [blankOpt, htb]
    rw [hbcv] at h7
    simp only [Option.map_none', parseOptFloat, Except.ok.injEq] at h7
    exact h7.symm
  have hsn : p.sales_notes = some s := by
    rw [h8, hs]
    simp [blankOpt, hsnb]
  have hviol : crossFieldViolation (mkLead p) = true := by
    unfold crossFieldViolation mkLead
    rw [hsn, hccn, hinn]
    simp [strTrim_idem, hsnb]
  cases hfe : fieldErrors p with
  | nil =>
    have hmv := modelValidate_error_of_violation p hfe hviol
    exact ⟨_, hmv, processRow_invalid minConf oracle row p _ hp hmv⟩
  | cons e es =>
    obtain ⟨msg, hmv⟩ := modelValidate_error_of_fieldErrors p (by rw [hfe]; simp)
    exact ⟨msg, hmv, processRow_invalid minConf oracle row p msg hp hmv⟩

theorem cross_field_invariant_forces_repair_witness :
    ∃ verr, modelValidate prepNotes = .error verr ∧
      processRow (Dec.ofInt 0) oracleRefuse rowNotes
        = (repairOutcome (Dec.ofInt 0) rowNotes verr (oracleRefuse prepNotes verr),
            [(prepNotes, verr)]) :=
  cross_field_invariant_forces_repair (Dec.ofInt 0) oracleRefuse rowNotes prepNotes
    "met at expo" rfl (by decide) (Or.inr ⟨"", rfl, by decide⟩) (Or.inl rfl)
    (Or.inr ⟨" ", rfl, by decide⟩) (by decide)

/-- **C4.** For every successfully repaired record, routing is decided by
`confidence >= min_confidence` with the boundary inclusive on the Repaired
side: the record lands in Repaired exactly when the threshold comparison
holds, in LowConfidence exactly when it fails, a confidence score whose
value equals the threshold is routed to Repaired (never LowConfidence),
and the comparison agrees with `≤` on the denoted rational values. -/
theorem confidence_threshold_inclusive (minConf : Dec) (oracle : Oracle)
    (row : RawRow) (p : Prepared) (verr : String) (lead : SalesLead)
    (hp : prepareRow row = .ok p) (hv : modelValidate p = .error verr)
    (ho : oracle p verr = .ok lead) :
    ((processRow minConf oracle row).1 = .repaired ⟨row, lead, verr⟩
        ↔ Dec.le minConf lead.confidence_score = true) ∧
    ((processRow minConf oracle row).1 = .lowConfidence ⟨row, lead, verr⟩
        ↔ Dec.le minConf lead.confidence_score = false) ∧
    (Dec.eqv lead.confidence_score minConf = true →
        (processRow minConf oracle row).1 = .repaired ⟨row, lead, verr⟩) ∧
    (Dec.le minConf lead.confidence_score = true
        ↔ minConf.toRat ≤ lead.confidence_score.toRat) := by
  have h1 := processRow_invalid minConf oracle row p verr hp hv
  have h2 : (processRow minConf oracle row).1
      = repairOutcome minConf row verr (oracle p verr) := by rw [h1]
  rw [ho] at h2
  have h3 : repairOutcome minConf row verr (.ok lead)
      = if Dec.le minConf lead.confidence_score then Outcome.repaired ⟨row, lead, verr⟩
        else Outcome.lowConfidence ⟨row, lead, verr⟩ := rfl
  rw [h3] at h2
  refine ⟨?_, ?_, ?_, Dec.le_iff_toRat minConf lead.confidence_score⟩
  · cases hle : Dec.le minConf lead.confidence_score <;> rw [hle] at h2 <;> simp [h2]
  · cases hle : Dec.le minConf lead.confidence_score <;> rw [hle] at h2 <;> simp [h2]
  · intro heqv
    have hle : Dec.le minConf lead.confidence_score = true := by
      rw [Dec.le_iff_toRat]
      exact le_of_eq ((Dec.eqv_iff_toRat lead.confidence_score minConf).mp heqv).symm
    rw [hle] at h2
    simpa using h2

theorem confidence_threshold_inclusive_witness :
    (processRow (Dec.ofInt 1) oracleFix rowBob).1
      = .repaired ⟨rowBob, leadFix, "name must be Title Case"⟩ :=
  (confidence_threshold_inclusive (Dec.ofInt 1) oracleFix rowBob prepBob
    "name must be Title Case" leadFix (by decide) (by decide) rfl).2.2.1 (by decide)

/-- **C5.** The normalizer includes each optional field in its output
mapping exactly when the raw string is present and non-blank after
trimming: the string-valued optional fields are passed through the
blank-filter unchanged, the numeric optional fields are present in the
mapping exactly when their raw string passes the blank-filter, and the
blank-filter keeps a value exactly when it is present with a non-blank
trim (a blank or missing field is omitted, never stored empty). -/
theorem optional_fields_included_iff_nonblank (row : RawRow) (p : Prepared)
    (hp : prepareRow row = .ok p) :
    p.country_code = blankOpt row.country_code ∧
    p.industry = blankOpt row.industry ∧
    p.segment = blankOpt row.segment ∧
    p.sales_notes = blankOpt row.sales_notes ∧
    p.contract_value.isSome = (blankOpt row.contract_value).isSome ∧
    p.confidence_score.isSome = (blankOpt row.confidence_score).isSome ∧
    (∀ o : Option String, (blankOpt o).isSome = true ↔ ∃ t, o = some t ∧ strTrim t ≠ "") := by
  obtain ⟨_, _, _, h4, h5, h6, h7, h8, h9⟩ := prepareRow_ok_inv row p hp
  refine ⟨h4, h5, h6, h8, ?_, parseOptFloat_ok_isSome _ _ h9, blankOpt_isSome_iff⟩
  rw [parseOptFloat_ok_isSome _ _ h7]
  cases blankOpt row.contract_value <;> rfl

theorem optional_fields_included_iff_nonblank_witness :
    prepNotes.sales_notes = blankOpt rowNotes.sales_notes ∧
    prepNotes.country_code = blankOpt rowNotes.country_code ∧
    prepNotes.contract_value.isSome = (blankOpt rowNotes.contract_value).isSome :=
  ⟨(optional_fields_included_iff_nonblank rowNotes prepNotes (by decide)).2.2.2.1,
   (optional_fields_included_iff_nonblank rowNotes prepNotes (by decide)).1,
   (optional_fields_included_iff_nonblank rowNotes prepNotes (by decide)).2.2.2.2.1⟩

/-- **C7.** Contract-value normalization strips the dollar sign and commas
before numeric parsing — the raw strings from the spec's examples parse to
the values 45000 and 50000 — and a row whose `contract_value` cell is
"-5000" survives preprocessing with the value -5000, then fails the
schema's strict-positivity constraint, so it is handed to the repair
collaborator as a validation failure rather than failing preprocessing. -/
theorem negative_contract_value_routed_to_repair (minConf : Dec) (oracle : Oracle)
    (row : RawRow) (p : Prepared)
    (hcv : row.contract_value = some "-5000")
    (hp : prepareRow row = .ok p) :
    (∃ d, parseFloat? (stripCurrency "$45,000") = some d ∧ d.toRat = 45000) ∧
    (∃ d, parseFloat? (stripCurrency "50000.00") = some d ∧ d.toRat = 50000) ∧
    (∃ d, p.contract_value = some d ∧ d.toRat = -5000) ∧
    ∃ verr, modelValidate p = .error verr ∧
      processRow minConf oracle row
        = (repairOutcome minConf row verr (oracle p verr), [(p, verr)]) := by
  obtain ⟨_, _, _, _, _, _, h7, _, _⟩ := prepareRow_ok_inv row p hp
  rw [hcv] at h7
  have hconc : parseOptFloat ((blankOpt (some "-5000")).map stripCurrency)
      = .ok (some ⟨-5000, 0⟩) := by decide
  rw [hconc] at h7
  have hpcv : p.contract_value = some ⟨-5000, 0⟩ := by
    simpa using h7.symm
  have hfe : fieldErrors p ≠ [] := by
    intro hnil
    have hparts := fieldErrors_nil_parts p hnil
    have hcvok := hparts.2.2.2.2.2.2.2.1
    rw [hpcv] at hcvok
    exact absurd hcvok (by decide)
  obtain ⟨msg, hmv⟩ := modelValidate_error_of_fieldErrors p hfe
  refine ⟨⟨⟨45000, 0⟩, by decide, by norm_num [Dec.toRat]⟩,
    ⟨⟨5000000, 2⟩, by decide, by norm_num [Dec.toRat]⟩,
    ⟨⟨-5000, 0⟩, hpcv, by norm_num [Dec.toRat]⟩,
    msg, hmv, processRow_invalid minConf oracle row p msg hp hmv⟩

theorem negative_contract_value_routed_to_repair_witness :
    ∃ verr, modelValidate prepNegCV = .error verr ∧
      processRow (Dec.ofInt 0) oracleRefuse rowNegCV
        = (repairOutcome (Dec.ofInt 0) rowNegCV verr (oracleRefuse prepNegCV verr),
            [(prepNegCV, verr)]) :=
  (negative_contract_value_routed_to_repair (Dec.ofInt 0) oracleRefuse rowNegCV prepNegCV
    rfl (by decide)).2.2.2

/-- **C6 (counterexample).** The claim's rule — every whitespace-separated
word begins with an uppercase letter and has no other uppercase letter —
is satisfied by "Abc-def" (one word, one leading uppercase) and by the
empty string (no words), yet `istitle`, hence the name validator, rejects
both: the code's word boundaries are all uncased characters, not just
whitespace, and at least one cased character is required. -/
theorem title_case_spec_counterexample :
    titleCaseSpec "Abc-def" = true ∧ istitle "Abc-def" = false ∧
    titleCaseSpec "" = true ∧ istitle "" = false := by decide

/-- **C6 (amended).** The name validator accepts a string exactly when it
has at least one cased character and every maximal run of cased characters
begins with an uppercase letter and contains no other uppercase letter
(equivalently, continues in lowercase): Python `istitle` word boundaries
are all uncased characters, not only whitespace. -/
theorem name_check_accepts_exactly_cased_runs (s : String) :
    istitle s = true ↔
      (runsBy isCased s.toList ≠ [] ∧ ∀ r ∈ runsBy isCased s.toList, runOk r = true) := by
  rw [istitle_eq_runs]
  rw [Bool.and_eq_true, Bool.not_eq_true', List.all_eq_true]
  constructor
  · rintro ⟨h1, h2⟩
    refine ⟨?_, h2⟩
    intro hnil
    rw [hnil] at h1
    exact absurd h1 (by simp)
  · rintro ⟨h1, h2⟩
    refine ⟨?_, h2⟩
    cases hre : runsBy isCased s.toList with
    | nil => exact absurd hre h1
    | cons a as => rfl

/-- **C9 (counterexample).** "Identical field values" fails twice for
fully valid rows: pydantic's `str_strip_whitespace=True` stores a
whitespace-padded name stripped, and `EmailStr` stores email-validator's
normalized address, lowercasing the domain of an email that carries no
whitespace at all — so the stored record differs from the normalized
mapping even beyond whitespace-stripping. -/
theorem valid_rows_pass_through_counterexample :
    (prepareRow rowPadded = .ok prepPadded ∧
     modelValidate prepPadded = .ok leadPadded ∧
     (processRow (Dec.ofInt 0) oracleRefuse rowPadded).1 = .valid leadPadded ∧
     prepPadded.name = " Alice Ray " ∧ leadPadded.name = "Alice Ray" ∧
     leadPadded.name ≠ prepPadded.name) ∧
    (prepareRow rowUpperEmail = .ok prepUpperEmail ∧
     modelValidate prepUpperEmail = .ok leadUpperEmail ∧
     (processRow (Dec.ofInt 0) oracleRefuse rowUpperEmail).1 = .valid leadUpperEmail ∧
     prepUpperEmail.email = "ann@EX.com" ∧ strTrim prepUpperEmail.email = "ann@EX.com" ∧
     leadUpperEmail.email = "ann@ex.com" ∧
     leadUpperEmail.email ≠ prepUpperEmail.email) := by
  exact ⟨⟨by decide, by decide, by decide, rfl, rfl, by decide⟩,
    ⟨by decide, by decide, by decide, rfl, by decide, rfl, by decide⟩⟩

/-- **C9 (amended).** For every input row whose normalized mapping
satisfies every schema constraint, the pipeline appends the validated
record to the Valid bucket, is terminal for that row, and never invokes
the repair collaborator; the stored field values equal the mapping's up to
whitespace-stripping of string fields and email-validator normalization of
the email (domain lowercased) — hence are identical whenever the mapping's
strings carry no surrounding whitespace and the email domain is already
lowercase — with absent enum fields passed through and `confidence_score`
defaulted to 1. -/
theorem valid_rows_terminal_in_valid_bucket (minConf : Dec) (oracle : Oracle)
    (row : RawRow) (p : Prepared) (lead : SalesLead)
    (hp : prepareRow row = .ok p) (hv : modelValidate p = .ok lead) :
    processRow minConf oracle row = (.valid lead, []) ∧
    lead.id = p.id ∧ lead.name = strTrim p.name ∧
    lead.email = normalizeEmail (strTrim p.email) ∧
    lead.country_code = p.country_code.map strTrim ∧
    lead.industry.map Industry.val = p.industry ∧
    lead.segment.map Segment.val = p.segment ∧
    lead.contract_value = p.contract_value ∧
    lead.sales_notes = p.sales_notes.map strTrim ∧
    lead.confidence_score = p.confidence_score.getD (Dec.ofInt 1) := by
  obtain ⟨hfe, hcf, hlead⟩ := modelValidate_ok_inv p lead hv
  obtain ⟨q1, q2, q3, q4, q5, q6, q7, q8, q9⟩ := fieldErrors_nil_parts p hfe
  subst hlead
  refine ⟨processRow_valid minConf oracle row p _ hp hv, rfl, rfl, rfl, rfl, ?_, ?_,
    rfl, rfl, rfl⟩
  · cases hpi : p.industry with
    | none => simp [mkLead, hpi]
    | some t =>
      have hsome : (Industry.fromString? t).isSome = true := by
        rw [hpi] at q6
        simpa [optionOk] using q6
      obtain ⟨i, hi⟩ := Option.isSome_iff_exists.mp hsome
      simp [mkLead, hpi, hi, industry_val_fromString t i hi]
  · cases hps : p.segment with
    | none => simp [mkLead, hps]
    | some t =>
      have hsome : (Segment.fromString? t).isSome = true := by
        rw [hps] at q7
        simpa [optionOk] using q7
      obtain ⟨i, hi⟩ := Option.isSome_iff_exists.mp hsome
      simp [mkLead, hps, hi, segment_val_fromString t i hi]

theorem valid_rows_terminal_in_valid_bucket_witness :
    processRow (Dec.ofInt 0) oracleRefuse rowPadded = (.valid leadPadded, []) ∧
    leadPadded.name = strTrim prepPadded.name ∧
    leadUpperEmail.email = normalizeEmail (strTrim prepUpperEmail.email) :=
  ⟨(valid_rows_terminal_in_valid_bucket (Dec.ofInt 0) oracleRefuse rowPadded prepPadded
      leadPadded (by decide) (by decide)).1,
   (valid_rows_terminal_in_valid_bucket (Dec.ofInt 0) oracleRefuse rowPadded prepPadded
      leadPadded (by decide) (by decide)).2.2.1,
   (valid_rows_terminal_in_valid_bucket (Dec.ofInt 0) oracleRefuse rowUpperEmail
      prepUpperEmail leadUpperEmail (by decide) (by decide)).2.2.2.1⟩
